import Mathlib

/-!
# In-memory expiring cache plugin (`memcache.go`)

A shallow embedding of the plugin's `Value`, `Memcache`, `New`, `Memcache.Set` and
`Memcache.Get`, followed by the properties proved about them.

Modelling conventions.

* `time.Now()` is an input of every operation that reads the clock: `Set` reads it once
  (line 50), `Get` reads it once, for the freshness check (line 65). A clock reading is an
  integer number of nanoseconds, `Time.Add` is addition and `Time.After` the strict order,
  which is what the standard library computes on readings of one clock.
* `map[string]Value` is a function from keys to optional values: indexing with the
  comma-ok form is application, assignment is `Store.insert`, `delete` is `Store.delete`.
* Calls on the injected `*slog.Logger` are kept as a trace of records, in program order.
* `Memcache.Set` and `Memcache.Get` are the methods run to completion, one call before the
  next starts, so every `Lock`/`Unlock` and `RLock`/`RUnlock` pair is entered on a free
  mutex and leaves it free; the mutex carries no state between calls and is not a field of
  the model.
* `GetCall.step` and `System.step` split `Get` at the points where it holds no lock, so that
  steps of several callers can be interleaved; `GetCall.steps_eq_Get` relates the two views.
-/

namespace Main

/-! ## Data model -/

/-- A reading of the clock, in nanoseconds (`time.Time` as returned by `time.Now()`). -/
abbrev Time := Int

/-- A signed span of nanoseconds (`time.Duration`). -/
abbrev Duration := Int

/-- The instant `t + d` (`Time.Add`). -/
def Time.Add (t : Time) (d : Duration) : Time := t + d

/-- Whether `t` is strictly later than `u` (`Time.After`). -/
def Time.After (t u : Time) : Bool := decide (u < t)

/-- Value represents a cache entry. -/
structure Value where
  Data : String
  ExpAt : Time
deriving DecidableEq, Repr

/-- Modelled from the spec: the sentinel `cache.ErrNotFound` of the host package
`github.com/josestg/yt-go-plugin/cache`, which is imported by the plugin and is not part of
its source; the spec describes it as the distinguished, comparable not-found error value. -/
inductive CacheError where
  | ErrNotFound
deriving DecidableEq, Repr

/-- A Go `error`: `none` is the nil error. -/
abbrev Error := Option CacheError

/-- A `context.Context` as far as the plugin can tell one from another: it is only handed
on to the logger. `done` says whether it is cancelled or past its deadline. -/
structure Context where
  done : Bool
deriving DecidableEq, Repr

/-- The context `context.Background()`, which `Logger.Info` logs under. -/
def Context.Background : Context := ⟨false⟩

/-- Severity of a log record (`slog.LevelDebug`, `slog.LevelInfo`). -/
inductive Level where
  | Debug
  | Info
deriving DecidableEq, Repr

/-- An attribute value passed to the logger. -/
inductive Attr where
  | str (s : String)
  | dur (d : Duration)
  | value (v : Value)
deriving DecidableEq, Repr

/-- One call made on the logger. -/
structure Record where
  ctx : Context
  level : Level
  msg : String
  attrs : List (String × Attr)
deriving DecidableEq, Repr

/-- The injected `*slog.Logger`, seen as the records written to it so far, oldest first. -/
structure Logger where
  records : List Record
deriving DecidableEq, Repr

/-- Logs at info level under the given context (`Logger.InfoContext`). -/
def Logger.InfoContext (l : Logger) (ctx : Context) (msg : String)
    (attrs : List (String × Attr)) : Logger :=
  ⟨l.records ++ [⟨ctx, Level.Info, msg, attrs⟩]⟩

/-- Logs at debug level under the given context (`Logger.DebugContext`). -/
def Logger.DebugContext (l : Logger) (ctx : Context) (msg : String)
    (attrs : List (String × Attr)) : Logger :=
  ⟨l.records ++ [⟨ctx, Level.Debug, msg, attrs⟩]⟩

/-- Logs at info level under the background context (`Logger.Info`). -/
def Logger.Info (l : Logger) (msg : String) (attrs : List (String × Attr)) : Logger :=
  l.InfoContext Context.Background msg attrs

/-- The map `map[string]Value`: `s k = none` when `k` has no entry. -/
abbrev Store := String → Option Value

/-- The empty map, `make(map[string]Value)`. -/
def Store.make : Store := fun _ => none

/-- The assignment `s[k] = v`. -/
def Store.insert (s : Store) (k : String) (v : Value) : Store :=
  fun k' => if k' = k then some v else s k'

/-- The builtin `delete(s, k)`; a no-op when `k` has no entry. -/
def Store.delete (s : Store) (k : String) : Store :=
  fun k' => if k' = k then none else s k'

/-- Memcache is a simple in-memory cache. -/
structure Memcache where
  log : Logger
  store : Store

/-! ## Operations -/

/-- New creates a new Memcache instance. -/
def New (log : Logger) : Memcache × Error :=
  let log := log.Info "[plugin/memcache] loaded" []
  let c : Memcache := { log := log, store := Store.make }
  (c, none)

/-- Factory is the symbol the plugin loader will try to load. -/
def Factory : Logger → Memcache × Error := New

/-- The method `Set`, run at clock reading `now`: returns the error and the cache after the
call. The deferred function runs after the map assignment, so the record of the release
is the last one written. -/
def Memcache.Set (m : Memcache) (now : Time) (ctx : Context) (key val : String)
    (exp : Duration) : Error × Memcache :=
  let log := m.log.InfoContext ctx "[plugin/memcache] set"
    [("key", Attr.str key), ("val", Attr.str val), ("exp", Attr.dur exp)]
  -- m.mu.Lock()
  let log := log.DebugContext ctx "[plugin/memcache] lock acquired" []
  let store := m.store.insert key { Data := val, ExpAt := Time.Add now exp }
  -- deferred: m.mu.Unlock()
  let log := log.DebugContext ctx "[plugin/memcache] lock released" []
  (none, { log := log, store := store })

/-- The method `Get`, run with `now` the clock reading of its freshness check: returns the
pair `(string, error)` and the cache after the call. -/
def Memcache.Get (m : Memcache) (now : Time) (ctx : Context) (key : String) :
    (String × Error) × Memcache :=
  let log := m.log.InfoContext ctx "[plugin/memcache] get" [("key", Attr.str key)]
  -- m.mu.RLock(); v, ok := m.store[key]; m.mu.RUnlock()
  match m.store key with
  | none => (("", some CacheError.ErrNotFound), { log := log, store := m.store })
  | some v =>
    if Time.After now v.ExpAt then
      let log := log.InfoContext ctx "[plugin/memcache] key expired"
        [("key", Attr.str key), ("val", Attr.value v)]
      -- m.mu.Lock(); delete(m.store, key); m.mu.Unlock()
      let store := m.store.delete key
      (("", some CacheError.ErrNotFound), { log := log, store := store })
    else
      let log := log.InfoContext ctx "[plugin/memcache] key found"
        [("key", Attr.str key), ("val", Attr.value v)]
      ((v.Data, none), { log := log, store := m.store })

/-! ## Sequences of calls -/

/-- One call made by the host on a cache. -/
inductive Op where
  | set (ctx : Context) (key val : String) (exp : Duration)
  | get (ctx : Context) (key : String)
deriving DecidableEq, Repr

/-- Whether the call is a `Set` on the key `k`. -/
def Op.isSetOn (k : String) : Op → Bool
  | Op.set _ key _ _ => decide (key = k)
  | Op.get _ _ => false

/-- The cache after one call made at clock reading `now`; the returned values are dropped. -/
def Memcache.step (m : Memcache) (now : Time) : Op → Memcache
  | Op.set ctx key val exp => (m.Set now ctx key val exp).2
  | Op.get ctx key => (m.Get now ctx key).2

/-- The cache after a sequence of calls, each with the clock reading it is made at. -/
def Memcache.run (m : Memcache) : List (Time × Op) → Memcache
  | [] => m
  | (now, op) :: rest => (m.step now op).run rest

/-- The key the call is made on. -/
def Op.key : Op → String
  | Op.set _ key _ _ => key
  | Op.get _ key => key

/-! ## Interleaved calls

The sections of the code that run under the mutex are the atomic steps: the assignment of
`Set` (lines 48-51), the lookup of `Get` under the read lock (lines 58-60) and the delete of
`Get` under the write lock (lines 67-69). Between its lookup and its delete a call of `Get`
holds no lock and does its freshness check on the value it read; steps of other callers may
run in between. -/

/-- Where a call of `Get` stands between its steps. -/
inductive GetPc where
  /-- Before the lookup under the read lock. -/
  | lookup
  /-- After the lookup, holding the outcome of `v, ok := m.store[key]`. -/
  | check (v : Option Value)
  /-- After finding `v` expired, before the delete under the write lock. -/
  | delete (v : Value)
  /-- After the return, with the returned pair. -/
  | returned (res : String × Error)
deriving DecidableEq, Repr

/-- A call of `Get` in flight. -/
structure GetCall where
  ctx : Context
  key : String
  pc : GetPc
deriving DecidableEq, Repr

/-- The next step of a call of `Get` on the shared cache; `now` is read by the freshness
check only. A call that has returned takes no further step. -/
def GetCall.step (c : GetCall) (m : Memcache) (now : Time) : GetCall × Memcache :=
  match c.pc with
  | GetPc.lookup =>
    let log := m.log.InfoContext c.ctx "[plugin/memcache] get" [("key", Attr.str c.key)]
    -- m.mu.RLock(); v, ok := m.store[key]; m.mu.RUnlock()
    (⟨c.ctx, c.key, GetPc.check (m.store c.key)⟩, { log := log, store := m.store })
  | GetPc.check none =>
    (⟨c.ctx, c.key, GetPc.returned ("", some CacheError.ErrNotFound)⟩, m)
  | GetPc.check (some v) =>
    if Time.After now v.ExpAt then
      let log := m.log.InfoContext c.ctx "[plugin/memcache] key expired"
        [("key", Attr.str c.key), ("val", Attr.value v)]
      (⟨c.ctx, c.key, GetPc.delete v⟩, { log := log, store := m.store })
    else
      let log := m.log.InfoContext c.ctx "[plugin/memcache] key found"
        [("key", Attr.str c.key), ("val", Attr.value v)]
      (⟨c.ctx, c.key, GetPc.returned (v.Data, none)⟩, { log := log, store := m.store })
  | GetPc.delete _ =>
    -- m.mu.Lock(); delete(m.store, key); m.mu.Unlock()
    (⟨c.ctx, c.key, GetPc.returned ("", some CacheError.ErrNotFound)⟩,
      { log := m.log, store := m.store.delete c.key })
  | GetPc.returned _ => (c, m)

/-- One cache shared by the calls of `Get` in flight, in the order they were entered. -/
structure System where
  cache : Memcache
  calls : List GetCall

/-- What the scheduler may do next. -/
inductive Event where
  /-- A caller runs `Set`, which has one locked section. -/
  | set (ctx : Context) (key val : String) (exp : Duration)
  /-- A caller enters `Get`. -/
  | get (ctx : Context) (key : String)
  /-- The call of `Get` number `i` takes its next step. -/
  | next (i : Nat)
deriving DecidableEq, Repr

/-- The system after one event at clock reading `now`. -/
def System.step (s : System) (now : Time) : Event → System
  | Event.set ctx key val exp =>
    { cache := (s.cache.Set now ctx key val exp).2, calls := s.calls }
  | Event.get ctx key =>
    { cache := s.cache, calls := s.calls ++ [⟨ctx, key, GetPc.lookup⟩] }
  | Event.next i =>
    match s.calls.get? i with
    | none => s
    | some c =>
      { cache := (c.step s.cache now).2, calls := s.calls.set i (c.step s.cache now).1 }

/-- The system after a schedule of events, each with its clock reading. -/
def System.run (s : System) : List (Time × Event) → System
  | [] => s
  | (now, ev) :: rest => (s.step now ev).run rest

/-- A cache fresh from `New` with no call in flight. -/
def System.init : System := { cache := (New ⟨[]⟩).1, calls := [] }

/-- A schedule in which a `Set` on the key runs between the lookup and the delete of a
`Get` on that key: the key first holds an entry that expires at 5; at reading 10 a `Get`
looks it up and finds it expired; before that call takes the write lock, a `Set` installs
an entry that expires at 110. -/
def raceSchedule : List (Time × Event) :=
  [(0, Event.set ⟨false⟩ "k" "old" 5),
   (10, Event.get ⟨false⟩ "k"),
   (10, Event.next 0),
   (10, Event.next 0),
   (10, Event.set ⟨false⟩ "k" "new" 100)]

/-! ## Basic facts -/

theorem Time.After_iff (t u : Time) : Time.After t u = true ↔ u < t := by
  simp [Time.After]

theorem Store.insert_same (s : Store) (k : String) (v : Value) :
    s.insert k v k = some v := by
  simp [Store.insert]

theorem Store.delete_same (s : Store) (k : String) : s.delete k k = none := by
  simp [Store.delete]

theorem Set_store (m : Memcache) (now : Time) (ctx : Context) (key val : String)
    (exp : Duration) :
    (m.Set now ctx key val exp).2.store
      = m.store.insert key { Data := val, ExpAt := now + exp } := rfl

theorem Set_err (m : Memcache) (now : Time) (ctx : Context) (key val : String)
    (exp : Duration) : (m.Set now ctx key val exp).1 = none := rfl

theorem Get_absent (m : Memcache) (now : Time) (ctx : Context) (key : String)
    (h : m.store key = none) :
    (m.Get now ctx key).1 = ("", some CacheError.ErrNotFound) := by
  simp [Memcache.Get, h]

theorem Get_expired (m : Memcache) (now : Time) (ctx : Context) (key : String) (v : Value)
    (h : m.store key = some v) (hexp : v.ExpAt < now) :
    (m.Get now ctx key).1 = ("", some CacheError.ErrNotFound) := by
  simp [Memcache.Get, h, Time.After, hexp]

theorem Get_live (m : Memcache) (now : Time) (ctx : Context) (key : String) (v : Value)
    (h : m.store key = some v) (hlive : now ≤ v.ExpAt) :
    (m.Get now ctx key).1 = (v.Data, none) := by
  simp [Memcache.Get, h, Time.After, not_lt.mpr hlive]

theorem Store.insert_other (s : Store) (k k' : String) (v : Value) (h : k' ≠ k) :
    s.insert k v k' = s k' := by
  simp [Store.insert, h]

theorem Store.delete_other (s : Store) (k k' : String) (h : k' ≠ k) :
    s.delete k k' = s k' := by
  simp [Store.delete, h]

/-- The store after `Get` is the store before, or the store before without the key. -/
theorem Get_store_cases (m : Memcache) (now : Time) (ctx : Context) (key : String) :
    (m.Get now ctx key).2.store = m.store
      ∨ (m.Get now ctx key).2.store = m.store.delete key := by
  unfold Memcache.Get
  cases h : m.store key with
  | none => simp
  | some v =>
    by_cases hexp : Time.After now v.ExpAt = true
    · simp [hexp]
    · simp [hexp]

/-- Under `Get`, a key either keeps what the store held for it or loses its entry. -/
theorem Get_store_at (m : Memcache) (now : Time) (ctx : Context) (key k : String) :
    (m.Get now ctx key).2.store k = m.store k ∨ (m.Get now ctx key).2.store k = none := by
  rcases Get_store_cases m now ctx key with h | h
  · exact Or.inl (by rw [h])
  · by_cases hk : k = key
    · exact Or.inr (by rw [h, hk, Store.delete_same])
    · exact Or.inl (by rw [h, Store.delete_other _ _ _ hk])

/-- A call that is not a `Set` on `k` leaves `k` with its entry or without any. -/
theorem step_store_at (m : Memcache) (now : Time) (op : Op) (k : String)
    (hop : op.isSetOn k = false) :
    (m.step now op).store k = m.store k ∨ (m.step now op).store k = none := by
  cases op with
  | set ctx key val exp =>
    have hk : k ≠ key := by
      intro h
      simp [Op.isSetOn, h] at hop
    exact Or.inl (by simp [Memcache.step, Set_store, Store.insert_other _ _ _ _ hk])
  | get ctx key => exact Get_store_at m now ctx key k

/-- A sequence of calls holding no `Set` on `k` leaves `k` with its entry or without any. -/
theorem run_store_at (ops : List (Time × Op)) (k : String) :
    ∀ m : Memcache, (∀ p ∈ ops, p.2.isSetOn k = false) →
      (m.run ops).store k = m.store k ∨ (m.run ops).store k = none := by
  induction ops with
  | nil => intro m _; exact Or.inl rfl
  | cons p rest ih =>
    intro m hops
    obtain ⟨now, op⟩ := p
    have hop : op.isSetOn k = false := hops (now, op) (List.mem_cons_self _ _)
    have hrest : ∀ q ∈ rest, q.2.isSetOn k = false :=
      fun q hq => hops q (List.mem_cons_of_mem _ hq)
    show ((m.step now op).run rest).store k = m.store k
      ∨ ((m.step now op).run rest).store k = none
    rcases ih (m.step now op) hrest with h | h
    · rcases step_store_at m now op k hop with h' | h'
      · exact Or.inl (h.trans h')
      · exact Or.inr (h.trans h')
    · exact Or.inr h

/-- `Set` on a key leaves every other key as it was. -/
theorem Set_store_other (m : Memcache) (now : Time) (ctx : Context) (key val : String)
    (exp : Duration) (k : String) (h : k ≠ key) :
    (m.Set now ctx key val exp).2.store k = m.store k := by
  rw [Set_store, Store.insert_other _ _ _ _ h]

/-- `Get` on a key leaves every other key as it was. -/
theorem Get_store_other (m : Memcache) (now : Time) (ctx : Context) (key k : String)
    (h : k ≠ key) : (m.Get now ctx key).2.store k = m.store k := by
  rcases Get_store_cases m now ctx key with h' | h'
  · rw [h']
  · rw [h', Store.delete_other _ _ _ h]

/-- A call on another key leaves `k` as it was. -/
theorem step_store_other (m : Memcache) (now : Time) (op : Op) (k : String)
    (h : op.key ≠ k) : (m.step now op).store k = m.store k := by
  cases op with
  | set ctx key val exp => exact Set_store_other m now ctx key val exp k (Ne.symm h)
  | get ctx key => exact Get_store_other m now ctx key k (Ne.symm h)

/-- A sequence of calls on other keys leaves `k` as it was. -/
theorem run_store_other (ops : List (Time × Op)) (k : String) :
    ∀ m : Memcache, (∀ p ∈ ops, p.2.key ≠ k) → (m.run ops).store k = m.store k := by
  induction ops with
  | nil => intro m _; rfl
  | cons p rest ih =>
    intro m hops
    obtain ⟨now, op⟩ := p
    show ((m.step now op).run rest).store k = m.store k
    rw [ih (m.step now op) (fun q hq => hops q (List.mem_cons_of_mem _ hq))]
    exact step_store_other m now op k (hops (now, op) (List.mem_cons_self _ _))

/-- A `Get` that finds no entry, or a live one, leaves the store as it was. -/
theorem Get_store_unchanged (m : Memcache) (now : Time) (ctx : Context) (key : String)
    (h : m.store key = none ∨ ∃ e, m.store key = some e ∧ now ≤ e.ExpAt) :
    (m.Get now ctx key).2.store = m.store := by
  rcases h with h | ⟨e, he, hlive⟩
  · simp [Memcache.Get, h]
  · simp [Memcache.Get, he, Time.After, not_lt.mpr hlive]

/-- A `Get` that returns the not-found pair leaves no entry for its key. -/
theorem Get_not_found_store (m : Memcache) (now : Time) (ctx : Context) (key : String)
    (h : (m.Get now ctx key).1 = ("", some CacheError.ErrNotFound)) :
    (m.Get now ctx key).2.store key = none := by
  cases hs : m.store key with
  | none => simp [Memcache.Get, hs]
  | some e =>
    by_cases hexp : e.ExpAt < now
    · simp [Memcache.Get, hs, Time.After, hexp, Store.delete]
    · rw [Get_live m now ctx key e hs (not_lt.mp hexp)] at h
      simp at h

/-- The three steps of a call of `Get`, taken with no step of another caller in between,
are the method `Get`: the call returns what `Get` returns and leaves the cache `Get` leaves.
The reading of the freshness check is the one that matters. -/
theorem GetCall.steps_eq_Get (m : Memcache) (ctx : Context) (key : String)
    (t0 now t2 : Time) :
    let s1 := GetCall.step ⟨ctx, key, GetPc.lookup⟩ m t0
    let s2 := s1.1.step s1.2 now
    let s3 := s2.1.step s2.2 t2
    s3.1 = ⟨ctx, key, GetPc.returned (m.Get now ctx key).1⟩ ∧ s3.2 = (m.Get now ctx key).2 := by
  cases hs : m.store key with
  | none => simp [GetCall.step, Memcache.Get, hs]
  | some v =>
    by_cases hexp : Time.After now v.ExpAt = true
    · simp [GetCall.step, Memcache.Get, hs, hexp]
    · simp [GetCall.step, Memcache.Get, hs, hexp]

/-! ## Properties -/

/-- C1 (round trip): on every cache, for every key `k`, value `v` (empty strings included)
and positive ttl `d`, `Set(k, v, d)` at clock reading `t` directly followed by `Get(k)` at a
reading `t'` with `t ≤ t' ≤ t + d` returns `(v, nil)`; the boundary `t' = t + d` is
included. -/
theorem set_get_roundtrip (m : Memcache) (ctx ctx' : Context) (k v : String) (d : Duration)
    (t t' : Time) (_hd : 0 < d) (_htt : t ≤ t') (hle : t' ≤ t + d) :
    ((m.Set t ctx k v d).2.Get t' ctx' k).1 = (v, none) := by
  have h := Get_live (m.Set t ctx k v d).2 t' ctx' k { Data := v, ExpAt := t + d }
    (by rw [Set_store, Store.insert_same]) hle
  simpa using h

theorem set_get_roundtrip_witness :
    (0 : Int) < 5 ∧ (10 : Int) ≤ 15 ∧ (15 : Int) ≤ 10 + 5 ∧
    (((New ⟨[]⟩).1.Set 10 ⟨false⟩ "" "" 5).2.Get 15 ⟨true⟩ "").1 = ("", none) :=
  ⟨by decide, by decide, by decide,
    set_get_roundtrip (New ⟨[]⟩).1 ⟨false⟩ ⟨true⟩ "" "" 5 10 15
      (by decide) (by decide) (by decide)⟩

/-- C2 (freshness-checked lookup): on every cache, for every key `k` and clock reading `t`,
`Get(k)` returns `(v, nil)` exactly when the store holds an entry for `k` with `Data = v` and
`t ≤ ExpAt`; when there is no such live entry it returns `("", ErrNotFound)`; and a `Get` that
returns a nil error never did so for an entry whose `ExpAt` is strictly before `t`. -/
theorem get_iff_fresh_lookup (m : Memcache) (ctx : Context) (k : String) (t : Time) :
    (∀ v : String, (m.Get t ctx k).1 = (v, none) ↔
        ∃ e, m.store k = some e ∧ e.Data = v ∧ t ≤ e.ExpAt) ∧
    ((¬ ∃ e, m.store k = some e ∧ t ≤ e.ExpAt) →
        (m.Get t ctx k).1 = ("", some CacheError.ErrNotFound)) ∧
    ((m.Get t ctx k).1.2 = none → ∀ e, m.store k = some e → ¬ e.ExpAt < t) := by
  cases h : m.store k with
  | none =>
    have hg := Get_absent m t ctx k h
    refine ⟨fun v => ?_, fun _ => hg, fun hn => ?_⟩
    · rw [hg]; simp
    · rw [hg] at hn; simp at hn
  | some e =>
    by_cases hlive : t ≤ e.ExpAt
    · have hg := Get_live m t ctx k e h hlive
      refine ⟨fun v => ?_, fun hno => ?_, fun _ e' he' => ?_⟩
      · rw [hg]
        constructor
        · intro hv
          exact ⟨e, rfl, by simpa using hv, hlive⟩
        · rintro ⟨e', he', hd, _⟩
          cases he'
          rw [hd]
      · exact absurd ⟨e, rfl, hlive⟩ hno
      · cases he'
        exact not_lt.mpr hlive
    · have hg := Get_expired m t ctx k e h (not_le.mp hlive)
      refine ⟨fun v => ?_, fun _ => hg, fun hn => ?_⟩
      · rw [hg]
        constructor
        · intro hv
          simp at hv
        · rintro ⟨e', he', _, hl⟩
          cases he'
          exact absurd hl hlive
      · rw [hg] at hn; simp at hn

theorem get_iff_fresh_lookup_witness :
    ((New ⟨[]⟩).1.Set 10 ⟨false⟩ "a" "x" 5).2.store "a" = some ⟨"x", 15⟩ ∧
    (((New ⟨[]⟩).1.Set 10 ⟨false⟩ "a" "x" 5).2.Get 12 ⟨false⟩ "a").1 = ("x", none) ∧
    (((New ⟨[]⟩).1.Set 10 ⟨false⟩ "a" "x" 5).2.Get 12 ⟨false⟩ "b").1
      = ("", some CacheError.ErrNotFound) :=
  ⟨by decide,
    ((get_iff_fresh_lookup ((New ⟨[]⟩).1.Set 10 ⟨false⟩ "a" "x" 5).2 ⟨false⟩ "a" 12).1 "x").mpr
      ⟨⟨"x", 15⟩, by decide, rfl, by decide⟩,
    (get_iff_fresh_lookup ((New ⟨[]⟩).1.Set 10 ⟨false⟩ "a" "x" 5).2 ⟨false⟩ "b" 12).2.1
      (by
        rintro ⟨e, he, _⟩
        have hb : ((New ⟨[]⟩).1.Set 10 ⟨false⟩ "a" "x" 5).2.store "b" = none := by decide
        rw [hb] at he
        cases he)⟩

/-- C3 (expiry boundary): on every cache, for every key `k`, value `v` and ttl `d`,
`Set(k, v, d)` at clock reading `t`, followed by any sequence of calls that holds no `Set` on
`k`, followed by `Get(k)` at a reading `t'` strictly after `t + d`, returns
`("", ErrNotFound)`. -/
theorem get_after_expiry_not_found (m : Memcache) (ctx ctx' : Context) (k v : String)
    (d : Duration) (t t' : Time) (ops : List (Time × Op))
    (hops : ∀ p ∈ ops, p.2.isSetOn k = false) (hlt : t + d < t') :
    (((m.Set t ctx k v d).2.run ops).Get t' ctx' k).1
      = ("", some CacheError.ErrNotFound) := by
  have hset : (m.Set t ctx k v d).2.store k = some { Data := v, ExpAt := t + d } := by
    rw [Set_store, Store.insert_same]
  rcases run_store_at ops k (m.Set t ctx k v d).2 hops with h | h
  · exact Get_expired _ t' ctx' k { Data := v, ExpAt := t + d } (h.trans hset) hlt
  · exact Get_absent _ t' ctx' k h

theorem get_after_expiry_not_found_witness :
    (∀ p ∈ [((12 : Time), Op.get ⟨false⟩ "a"), (13, Op.set ⟨false⟩ "b" "y" 100)],
      p.2.isSetOn "a" = false) ∧ (10 : Int) + 5 < 16 ∧
    ((((New ⟨[]⟩).1.Set 10 ⟨false⟩ "a" "x" 5).2.run
        [(12, Op.get ⟨false⟩ "a"), (13, Op.set ⟨false⟩ "b" "y" 100)]).Get 16 ⟨false⟩ "a").1
      = ("", some CacheError.ErrNotFound) :=
  ⟨by decide, by decide,
    get_after_expiry_not_found (New ⟨[]⟩).1 ⟨false⟩ ⟨false⟩ "a" "x" 5 10 16
      [(12, Op.get ⟨false⟩ "a"), (13, Op.set ⟨false⟩ "b" "y" 100)] (by decide) (by decide)⟩

/-- C4, as stated, fails: after `Set("k", "v", 0)` at clock reading 10 on a new cache, the
`Get("k")` made at the same reading 10 returns `("v", nil)`, not `("", ErrNotFound)`. -/
theorem zero_ttl_same_reading_found :
    (10 : Time) ≤ 10 ∧
    (((New ⟨[]⟩).1.Set 10 ⟨false⟩ "k" "v" 0).2.Get 10 ⟨false⟩ "k").1 = ("v", none) ∧
    (((New ⟨[]⟩).1.Set 10 ⟨false⟩ "k" "v" 0).2.Get 10 ⟨false⟩ "k").1
      ≠ ("", some CacheError.ErrNotFound) := by
  decide

/-- C4, amended: on every cache, `Set(k, v, 0)` at clock reading `t` stores `ExpAt = t`; the
`Get(k)` that follows it returns `("", ErrNotFound)` at every reading `t'` strictly after
`t`, and returns `(v, nil)` at `t' = t`, when the clock has not advanced. -/
theorem zero_ttl_expired_once_clock_advances (m : Memcache) (ctx ctx' : Context)
    (k v : String) (t t' : Time) (htt : t ≤ t') :
    (m.Set t ctx k v 0).2.store k = some { Data := v, ExpAt := t } ∧
    ((m.Set t ctx k v 0).2.Get t' ctx' k).1
      = if t < t' then ("", some CacheError.ErrNotFound) else (v, none) := by
  have hset : (m.Set t ctx k v 0).2.store k = some { Data := v, ExpAt := t } := by
    rw [Set_store, Store.insert_same, add_zero]
  refine ⟨hset, ?_⟩
  by_cases hlt : t < t'
  · rw [if_pos hlt]
    exact Get_expired _ t' ctx' k _ hset hlt
  · rw [if_neg hlt]
    exact Get_live _ t' ctx' k _ hset (le_antisymm htt (not_lt.mp hlt)).ge

theorem zero_ttl_expired_once_clock_advances_witness :
    (10 : Time) ≤ 11 ∧
    (((New ⟨[]⟩).1.Set 10 ⟨false⟩ "k" "v" 0).2.Get 11 ⟨false⟩ "k").1
      = ("", some CacheError.ErrNotFound) :=
  ⟨by decide,
    (zero_ttl_expired_once_clock_advances (New ⟨[]⟩).1 ⟨false⟩ ⟨false⟩ "k" "v" 10 11
      (by decide)).2⟩

/-- C5 (negative ttl): on every cache, for every key `k`, value `v` and strictly negative
ttl `d`, `Set(k, v, d)` at clock reading `t` returns a nil error, and the `Get(k)` that
follows it at any reading `t' ≥ t` returns `("", ErrNotFound)`. -/
theorem negative_ttl_not_found (m : Memcache) (ctx ctx' : Context) (k v : String)
    (d : Duration) (t t' : Time) (hd : d < 0) (htt : t ≤ t') :
    (m.Set t ctx k v d).1 = none ∧
    ((m.Set t ctx k v d).2.Get t' ctx' k).1 = ("", some CacheError.ErrNotFound) := by
  refine ⟨Set_err m t ctx k v d, ?_⟩
  have hset : (m.Set t ctx k v d).2.store k = some { Data := v, ExpAt := t + d } := by
    rw [Set_store, Store.insert_same]
  refine Get_expired _ t' ctx' k _ hset ?_
  show t + d < t'
  linarith

theorem negative_ttl_not_found_witness :
    (-3 : Int) < 0 ∧ (10 : Int) ≤ 10 ∧
    ((New ⟨[]⟩).1.Set 10 ⟨false⟩ "k" "v" (-3)).1 = none ∧
    (((New ⟨[]⟩).1.Set 10 ⟨false⟩ "k" "v" (-3)).2.Get 10 ⟨false⟩ "k").1
      = ("", some CacheError.ErrNotFound) :=
  ⟨by decide, by decide,
    negative_ttl_not_found (New ⟨[]⟩).1 ⟨false⟩ ⟨false⟩ "k" "v" (-3) 10 10
      (by decide) (by decide)⟩

/-- C6 (overwrite): on every cache, for every key `k`, values `v1`, `v2`, ttl `d1` of any
sign and ttl `d2 > 0`, `Set(k, v1, d1)` at `t1`, then `Set(k, v2, d2)` at `t2 ≥ t1`, then
`Get(k)` at `t3` with `t2 ≤ t3 ≤ t2 + d2` returns `(v2, nil)`, whatever the first entry's
expiry was. -/
theorem overwrite_get_returns_second (m : Memcache) (c1 c2 c3 : Context) (k v1 v2 : String)
    (d1 d2 : Duration) (t1 t2 t3 : Time) (_hd2 : 0 < d2) (_h12 : t1 ≤ t2) (_h23 : t2 ≤ t3)
    (hle : t3 ≤ t2 + d2) :
    (((m.Set t1 c1 k v1 d1).2.Set t2 c2 k v2 d2).2.Get t3 c3 k).1 = (v2, none) := by
  have hset : ((m.Set t1 c1 k v1 d1).2.Set t2 c2 k v2 d2).2.store k
      = some { Data := v2, ExpAt := t2 + d2 } := by
    rw [Set_store, Store.insert_same]
  exact Get_live _ t3 c3 k _ hset hle

theorem overwrite_get_returns_second_witness :
    (0 : Int) < 5 ∧ (10 : Int) ≤ 20 ∧ (20 : Int) ≤ 25 ∧ (25 : Int) ≤ 20 + 5 ∧
    ((((New ⟨[]⟩).1.Set 10 ⟨false⟩ "k" "old" (-1)).2.Set 20 ⟨false⟩ "k" "new" 5).2.Get 25
        ⟨false⟩ "k").1 = ("new", none) :=
  ⟨by decide, by decide, by decide, by decide,
    overwrite_get_returns_second (New ⟨[]⟩).1 ⟨false⟩ ⟨false⟩ ⟨false⟩ "k" "old" "new" (-1) 5
      10 20 25 (by decide) (by decide) (by decide) (by decide)⟩

/-- C7 (unknown key): `New` returns a nil error and a cache with an empty store, on which
every `Get` returns `("", ErrNotFound)`; on any cache that holds no entry for `k`, `Get(k)`
returns `("", ErrNotFound)`; and that is the very pair `Get` returns for a key whose entry is
present but expired, so the result does not tell the two cases apart. -/
theorem unknown_key_not_found_indistinguishable :
    (∀ log : Logger, (New log).2 = none ∧ (∀ k, (New log).1.store k = none) ∧
      ∀ (t : Time) (ctx : Context) (k : String),
        ((New log).1.Get t ctx k).1 = ("", some CacheError.ErrNotFound)) ∧
    (∀ (m : Memcache) (t : Time) (ctx : Context) (k : String), m.store k = none →
      (m.Get t ctx k).1 = ("", some CacheError.ErrNotFound)) ∧
    (∀ (m m' : Memcache) (t t' : Time) (ctx ctx' : Context) (k k' : String) (e : Value),
      m.store k = none → m'.store k' = some e → e.ExpAt < t' →
      (m'.Get t' ctx' k').1 = (m.Get t ctx k).1) := by
  refine ⟨fun log => ⟨rfl, fun _ => rfl, fun t ctx k => Get_absent _ t ctx k rfl⟩,
    fun m t ctx k h => Get_absent m t ctx k h, ?_⟩
  intro m m' t t' ctx ctx' k k' e h h' hexp
  rw [Get_absent m t ctx k h, Get_expired m' t' ctx' k' e h' hexp]

theorem unknown_key_not_found_indistinguishable_witness :
    (New ⟨[]⟩).1.store "k" = none ∧
    ((New ⟨[]⟩).1.Set 10 ⟨false⟩ "k" "v" 5).2.store "k" = some ⟨"v", 15⟩ ∧
    (15 : Time) < 16 ∧
    (((New ⟨[]⟩).1.Set 10 ⟨false⟩ "k" "v" 5).2.Get 16 ⟨false⟩ "k").1
      = ((New ⟨[]⟩).1.Get 16 ⟨false⟩ "k").1 :=
  ⟨by decide, by decide, by decide,
    unknown_key_not_found_indistinguishable.2.2 (New ⟨[]⟩).1
      ((New ⟨[]⟩).1.Set 10 ⟨false⟩ "k" "v" 5).2 16 16 ⟨false⟩ ⟨false⟩ "k" "k" ⟨"v", 15⟩
      (by decide) (by decide) (by decide)⟩

/-- C8 (Set postcondition): on every cache, for every key, value, ttl of any sign and
context, cancelled or not, `Set` at clock reading `t` returns a nil error and leaves the
store mapping the key to exactly `Value{Data: value, ExpAt: t + ttl}`, whatever the key held
before. -/
theorem set_postcondition (m : Memcache) (ctx : Context) (key value : String)
    (ttl : Duration) (t : Time) :
    (m.Set t ctx key value ttl).1 = none ∧
    (m.Set t ctx key value ttl).2.store key = some { Data := value, ExpAt := t + ttl } := by
  refine ⟨Set_err m t ctx key value ttl, ?_⟩
  rw [Set_store, Store.insert_same]

/-- C9 (lazy deletion): on every cache that holds for `k` an entry whose `ExpAt` is strictly
before the clock reading `t`, `Get(k)` at `t` returns `("", ErrNotFound)` and leaves a store
with no entry for `k`; a second `Get(k)`, at any reading, then takes the absent-key path: it
returns `("", ErrNotFound)`, leaves the store as it is and writes the lookup record only, with
no expiry record. -/
theorem get_expired_removes_key (m : Memcache) (ctx ctx2 : Context) (k : String) (e : Value)
    (t t2 : Time) (he : m.store k = some e) (hexp : e.ExpAt < t) :
    (m.Get t ctx k).1 = ("", some CacheError.ErrNotFound) ∧
    (m.Get t ctx k).2.store k = none ∧
    ((m.Get t ctx k).2.Get t2 ctx2 k).1 = ("", some CacheError.ErrNotFound) ∧
    ((m.Get t ctx k).2.Get t2 ctx2 k).2.store = (m.Get t ctx k).2.store ∧
    ((m.Get t ctx k).2.Get t2 ctx2 k).2.log.records
      = (m.Get t ctx k).2.log.records
        ++ [⟨ctx2, Level.Info, "[plugin/memcache] get", [("key", Attr.str k)]⟩] := by
  have hdel : (m.Get t ctx k).2.store k = none := by
    simp [Memcache.Get, he, Time.After, hexp, Store.delete]
  refine ⟨Get_expired m t ctx k e he hexp, hdel, Get_absent _ t2 ctx2 k hdel, ?_, ?_⟩
  · rw [Memcache.Get, hdel]
  · rw [Memcache.Get, hdel]
    rfl

theorem get_expired_removes_key_witness :
    ((New ⟨[]⟩).1.Set 10 ⟨false⟩ "k" "v" 5).2.store "k" = some ⟨"v", 15⟩ ∧ (15 : Time) < 16 ∧
    ((((New ⟨[]⟩).1.Set 10 ⟨false⟩ "k" "v" 5).2.Get 16 ⟨false⟩ "k").2.store "k" = none) :=
  ⟨by decide, by decide,
    (get_expired_removes_key ((New ⟨[]⟩).1.Set 10 ⟨false⟩ "k" "v" 5).2 ⟨false⟩ ⟨true⟩ "k"
      ⟨"v", 15⟩ 16 17 (by decide) (by decide)).2.1⟩

/-- C11 fails on the code: in the schedule `raceSchedule`, whose clock readings never
decrease, the call of `Get` has observed the entry `("old", 5)` expired and stands before its
delete, while the store holds for the key the entry `("new", 110)` installed by a `Set` that
ran after the lookup; that entry is live at reading 11, yet the delete step at 11 removes it,
and a `Get` at 12 then returns `("", ErrNotFound)`. -/
theorem get_delete_step_removes_live_entry :
    List.Pairwise (fun a b : Time => a ≤ b)
      ((raceSchedule ++ [(11, Event.next 0)]).map Prod.fst) ∧
    (System.init.run raceSchedule).calls = [⟨⟨false⟩, "k", GetPc.delete ⟨"old", 5⟩⟩] ∧
    (System.init.run raceSchedule).cache.store "k" = some ⟨"new", 110⟩ ∧
    (11 : Time) ≤ 110 ∧
    ((System.init.run raceSchedule).step 11 (Event.next 0)).calls
      = [⟨⟨false⟩, "k", GetPc.returned ("", some CacheError.ErrNotFound)⟩] ∧
    ((System.init.run raceSchedule).step 11 (Event.next 0)).cache.store "k" = none ∧
    (((System.init.run raceSchedule).step 11 (Event.next 0)).cache.Get 12 ⟨false⟩ "k").1
      = ("", some CacheError.ErrNotFound) := by
  decide

/-- C12 (prior ttl discarded): on every cache, the store after `Set(k, v1, d1)` at `t1`
followed by `Set(k, v2, d2)` at `t2` is the store after `Set(k, v2, d2)` at `t2` alone; so
when the second expiry comes first, `Get(k)` at a reading after `t2 + d2` and before
`t1 + d1` returns `("", ErrNotFound)`: the first expiry is not kept. -/
theorem second_set_discards_first (m : Memcache) (c1 c2 c2' c3 : Context) (k v1 v2 : String)
    (d1 d2 : Duration) (t1 t2 t3 : Time) :
    ((m.Set t1 c1 k v1 d1).2.Set t2 c2 k v2 d2).2.store = (m.Set t2 c2' k v2 d2).2.store ∧
    (t2 + d2 < t3 → t3 < t1 + d1 →
      (((m.Set t1 c1 k v1 d1).2.Set t2 c2 k v2 d2).2.Get t3 c3 k).1
        = ("", some CacheError.ErrNotFound)) := by
  constructor
  · funext k'
    by_cases hk : k' = k
    · subst hk
      simp [Set_store, Store.insert_same]
    · simp [Set_store, Store.insert_other _ _ _ _ hk]
  · intro hlt _
    have hset : ((m.Set t1 c1 k v1 d1).2.Set t2 c2 k v2 d2).2.store k
        = some { Data := v2, ExpAt := t2 + d2 } := by
      rw [Set_store, Store.insert_same]
    exact Get_expired _ t3 c3 k _ hset hlt

theorem second_set_discards_first_witness :
    (20 : Time) + 5 < 30 ∧ (30 : Time) < 10 + 100 ∧
    ((((New ⟨[]⟩).1.Set 10 ⟨false⟩ "k" "old" 100).2.Set 20 ⟨false⟩ "k" "new" 5).2.Get 30
        ⟨false⟩ "k").1 = ("", some CacheError.ErrNotFound) :=
  ⟨by decide, by decide,
    (second_set_discards_first (New ⟨[]⟩).1 ⟨false⟩ ⟨false⟩ ⟨false⟩ ⟨false⟩ "k" "old" "new"
      100 5 10 20 30).2 (by decide) (by decide)⟩

/-- C13 (frame on other keys): on every cache and for keys `k ≠ k'`, neither `Set(k, ...)`
nor `Get(k)`, whichever of its three outcomes it has, changes what the store holds for `k'`,
be it an entry or none; so through any sequence of calls on other keys the store holds
for `k'` what it held before, an expired entry that is never read included. -/
theorem other_keys_unchanged (m : Memcache) (ctx : Context) (k k' v : String) (d : Duration)
    (t : Time) (hk : k ≠ k') :
    (m.Set t ctx k v d).2.store k' = m.store k' ∧
    (m.Get t ctx k).2.store k' = m.store k' ∧
    (∀ ops : List (Time × Op), (∀ p ∈ ops, p.2.key ≠ k') →
      (m.run ops).store k' = m.store k') :=
  ⟨Set_store_other m t ctx k v d k' (Ne.symm hk), Get_store_other m t ctx k k' (Ne.symm hk),
    fun ops hops => run_store_other ops k' m hops⟩

theorem other_keys_unchanged_witness :
    "a" ≠ "b" ∧
    (∀ p ∈ [((20 : Time), Op.get ⟨false⟩ "a"), (30, Op.set ⟨false⟩ "a" "y" 1),
        (40, Op.get ⟨true⟩ "c")], p.2.key ≠ "b") ∧
    ((((New ⟨[]⟩).1.Set 0 ⟨false⟩ "b" "x" 5).2.Set 1 ⟨false⟩ "a" "z" 5).2.run
      [(20, Op.get ⟨false⟩ "a"), (30, Op.set ⟨false⟩ "a" "y" 1),
        (40, Op.get ⟨true⟩ "c")]).store "b" = some ⟨"x", 5⟩ :=
  ⟨by decide, by decide,
    ((other_keys_unchanged (((New ⟨[]⟩).1.Set 0 ⟨false⟩ "b" "x" 5).2.Set 1 ⟨false⟩ "a" "z"
        5).2 ⟨false⟩ "a" "b" "" 0 0 (by decide)).2.2
      [(20, Op.get ⟨false⟩ "a"), (30, Op.set ⟨false⟩ "a" "y" 1), (40, Op.get ⟨true⟩ "c")]
      (by decide)).trans (by decide)⟩

/-- C14 (expiry is monotone): on every cache, for every key `k` and clock readings
`t ≤ t'`: if `Get(k)` at `t` returns `("", ErrNotFound)` then, after any sequence of calls
that holds no `Set` on `k`, `Get(k)` at `t'` returns `("", ErrNotFound)` too, and so does
`Get(k)` at `t'` made on the store as it was before; and if `Get(k)` at `t'` returns
`(v, nil)` then `Get(k)` at `t` on that same store returns `(v, nil)`. -/
theorem not_found_is_monotone (m : Memcache) (ctx ctx' : Context) (k : String) (t t' : Time)
    (htt : t ≤ t') :
    ((m.Get t ctx k).1 = ("", some CacheError.ErrNotFound) →
      (∀ ops : List (Time × Op), (∀ p ∈ ops, p.2.isSetOn k = false) →
        (((m.Get t ctx k).2.run ops).Get t' ctx' k).1 = ("", some CacheError.ErrNotFound)) ∧
      (m.Get t' ctx' k).1 = ("", some CacheError.ErrNotFound)) ∧
    (∀ v : String, (m.Get t' ctx' k).1 = (v, none) → (m.Get t ctx k).1 = (v, none)) := by
  have hback : ∀ v : String, (m.Get t' ctx' k).1 = (v, none) →
      (m.Get t ctx k).1 = (v, none) := by
    intro v hv
    cases hs : m.store k with
    | none =>
      rw [Get_absent m t' ctx' k hs] at hv
      simp at hv
    | some e =>
      by_cases hexp : e.ExpAt < t'
      · rw [Get_expired m t' ctx' k e hs hexp] at hv
        simp at hv
      · have hlive : t' ≤ e.ExpAt := not_lt.mp hexp
        rw [Get_live m t' ctx' k e hs hlive] at hv
        rw [Get_live m t ctx k e hs (le_trans htt hlive)]
        exact hv
  refine ⟨fun hnf => ⟨fun ops hops => ?_, ?_⟩, hback⟩
  · have hnone := Get_not_found_store m t ctx k hnf
    rcases run_store_at ops k (m.Get t ctx k).2 hops with h | h
    · exact Get_absent _ t' ctx' k (h.trans hnone)
    · exact Get_absent _ t' ctx' k h
  · cases hs : m.store k with
    | none => exact Get_absent m t' ctx' k hs
    | some e =>
      by_cases hexp : e.ExpAt < t'
      · exact Get_expired m t' ctx' k e hs hexp
      · have hlive := hback e.Data (Get_live m t' ctx' k e hs (not_lt.mp hexp))
        rw [hlive] at hnf
        simp at hnf

theorem not_found_is_monotone_witness :
    (16 : Time) ≤ 20 ∧
    (((New ⟨[]⟩).1.Set 10 ⟨false⟩ "k" "v" 5).2.Get 16 ⟨false⟩ "k").1
      = ("", some CacheError.ErrNotFound) ∧
    (((New ⟨[]⟩).1.Set 10 ⟨false⟩ "k" "v" 5).2.Get 20 ⟨false⟩ "k").1
      = ("", some CacheError.ErrNotFound) :=
  ⟨by decide, by decide,
    ((not_found_is_monotone ((New ⟨[]⟩).1.Set 10 ⟨false⟩ "k" "v" 5).2 ⟨false⟩ ⟨false⟩ "k"
      16 20 (by decide)).1 (by decide)).2⟩

/-- C15 (Get is read-only unless it observes an expired entry): on every cache, for every
key `k` and clock reading `t`, if `k` has no entry or its entry is live (`t ≤ ExpAt`) then
the store after `Get(k)` is the store before; and after any `Get(k)` the store is the store
before or the store before with `k` removed, so every entry it holds was held before, with
the same `Value`. -/
theorem get_read_only_unless_expired (m : Memcache) (ctx : Context) (k : String) (t : Time) :
    ((m.store k = none ∨ ∃ e, m.store k = some e ∧ t ≤ e.ExpAt) →
      (m.Get t ctx k).2.store = m.store) ∧
    ((m.Get t ctx k).2.store = m.store ∨ (m.Get t ctx k).2.store = m.store.delete k) ∧
    (∀ (k' : String) (e : Value), (m.Get t ctx k).2.store k' = some e →
      m.store k' = some e) := by
  refine ⟨Get_store_unchanged m t ctx k, Get_store_cases m t ctx k, fun k' e he => ?_⟩
  rcases Get_store_at m t ctx k k' with h | h
  · rw [← h]; exact he
  · rw [h] at he; cases he

theorem get_read_only_unless_expired_witness :
    (((New ⟨[]⟩).1.Set 10 ⟨false⟩ "k" "v" 5).2.store "k" = some ⟨"v", 15⟩ ∧ (15 : Time) ≤ 15) ∧
    (((New ⟨[]⟩).1.Set 10 ⟨false⟩ "k" "v" 5).2.Get 15 ⟨false⟩ "k").2.store
      = ((New ⟨[]⟩).1.Set 10 ⟨false⟩ "k" "v" 5).2.store :=
  ⟨⟨by decide, by decide⟩,
    (get_read_only_unless_expired ((New ⟨[]⟩).1.Set 10 ⟨false⟩ "k" "v" 5).2 ⟨false⟩ "k" 15).1
      (Or.inr ⟨⟨"v", 15⟩, by decide, by decide⟩)⟩

end Main
